import Mathlib

/-!
Verification of the polarissync reconciliation program (src/configuration.go).

The program reads the inventory of workstation names from a relational store
(`listDBComputers`), optionally the primary directory (`listADComputers`) and
the cloud directory (`listAzureComputers`), and then removes from the store
every inventory record that is absent from the merged directory list and not
configured as exempt (`findComputersToRemoveFromDB` / `removeComputer`).

The embedding below models machine names as Lean `String`s.  Go's
`strings.ToUpper` and `strings.TrimSpace` are modelled by their ASCII
behaviour (`goToUpper`, `String.trim`), which covers every name and report
character the claims mention.  External effects (SQL query, LDAP search,
the PowerShell session, the SQL delete) are modelled as explicit outcome
values passed in, so every function is pure and executable.
-/

namespace Polarissync

/-- ASCII byte-wise uppercase of one character, the behaviour of Go's
`strings.ToUpper` on ASCII input (`configuration.go` lines 152, 185, 242). -/
def goUpperChar (c : Char) : Char :=
  if 97 ≤ c.toNat ∧ c.toNat ≤ 122 then Char.ofNat (c.toNat - 32) else c

/-- Model of Go's `strings.ToUpper` restricted to ASCII strings: uppercase
every character, change nothing else (no trimming). -/
def goToUpper (s : String) : String :=
  String.mk (s.data.map goUpperChar)

/-- Outcome of the `conn.Exec` delete statement in `removeComputer`
(`configuration.go` line 295): either an error, or success with a number of
rows affected.  The Go code receives both but discards the result value. -/
inductive ExecOutcome where
  | execError : String → ExecOutcome
  | ok : Nat → ExecOutcome
deriving Repr, DecidableEq

/-- Model of `removeComputer` (`configuration.go` lines 288-304): returns `false` when
the delete statement errors, `true` otherwise.  The rows-affected result of
the statement is discarded (`_, err = conn.Exec(...)`), so it plays no part
in the return value. -/
def removeComputer (execResult : ExecOutcome) : Bool :=
  match execResult with
  | .execError _ => false
  | .ok _ => true

/-- Result of `findComputersToRemoveFromDB`: the identifiers passed to
`removeComputer` in order, the count of successful removals, and the
identifiers logged as exempt. -/
structure ReconcileResult where
  sinkCalls : List String
  removedCount : Nat
  exemptLogged : List String
deriving Repr, DecidableEq

/-- Model of `findComputersToRemoveFromDB` (`configuration.go` lines 256-285):
for each entry of `dbComputers`, scan `adComputers` for an equal string;
if absent, scan the configured exempt list for an equal string (the exempt
entries are compared as configured, without normalization); if still absent,
call `removeComputer` and count a success.  `remove` is the outcome of the
sink for a given name. -/
def findComputersToRemoveFromDB (remove : String → Bool)
    (dbComputers adComputers exemptComputers : List String) : ReconcileResult :=
  match dbComputers with
  | [] => ⟨[], 0, []⟩
  | x :: rest =>
    let r := findComputersToRemoveFromDB remove rest adComputers exemptComputers
    if adComputers.contains x then r
    else if exemptComputers.contains x then
      { r with exemptLogged := x :: r.exemptLogged }
    else
      { sinkCalls := x :: r.sinkCalls,
        removedCount := (if remove x then 1 else 0) + r.removedCount,
        exemptLogged := r.exemptLogged }

/-- Model of `listDBComputers` (`configuration.go` lines 134-159): given the outcome
of the inventory query (the raw `ComputerName` values, or an error), append
the uppercase of each raw name.  Any error is fatal for the run. -/
def listDBComputers (dbRows : Except String (List String)) :
    Except String (List String) :=
  match dbRows with
  | .error e => .error e
  | .ok rows => .ok (rows.map goToUpper)

/-- One attribute of an LDAP search entry: its list of values. -/
structure LdapAttribute where
  values : List String
deriving Repr, DecidableEq

/-- One entry of an LDAP search result: its list of attributes. -/
structure LdapEntry where
  attributes : List LdapAttribute
deriving Repr, DecidableEq

/-- The unguarded `x.Attributes[0].Values[0]` read of `listADComputers`
(`configuration.go` line 185): `none` models the out-of-range panic when the
entry has no attribute or the attribute has no value. -/
def entryCn (e : LdapEntry) : Option String :=
  match e.attributes with
  | [] => none
  | a :: _ =>
    match a.values with
    | [] => none
    | v :: _ => some v

/-- Collect `strings.ToUpper(x.Attributes[0].Values[0])` over the entries,
`none` when any read is out of range. -/
def collectCns : List LdapEntry → Option (List String)
  | [] => some []
  | e :: rest =>
    match entryCn e with
    | none => none
    | some v => (collectCns rest).map (fun l => goToUpper v :: l)

/-- Model of `listADComputers` (`configuration.go` lines 162-192) given the outcome of
the LDAP subtree search: a search error is fatal; a search returning zero
entries is fatal (`no results returned from ldap search`); otherwise the
uppercased first value of the first attribute of each entry is appended,
panicking when that read is out of range. -/
def listADComputers (searchResult : Except String (List LdapEntry)) :
    Except String (List String) :=
  match searchResult with
  | .error e => .error e
  | .ok entries =>
    if entries.length > 0 then
      match collectCns entries with
      | none => .error "runtime panic: index out of range"
      | some names => .ok names
    else .error "no results returned from ldap search"

/-- Model of Go's `strings.Split(s, "\r")`: cut the character list around
every carriage return. -/
def goSplitCR : List Char → List (List Char)
  | [] => [[]]
  | c :: rest =>
    match goSplitCR rest with
    | [] => []
    | chunk :: chunks =>
      if c = '\x0d' then [] :: chunk :: chunks
      else (c :: chunk) :: chunks

/-- ASCII whitespace, the characters Go's `strings.TrimSpace` removes from
ASCII input. -/
def isSpaceChar (c : Char) : Bool :=
  c = ' ' || c = '\t' || c = '\n' || c = '\x0b' || c = '\x0c' || c = '\x0d'

/-- Model of Go's `strings.TrimSpace` on ASCII input: drop leading and
trailing whitespace characters. -/
def goTrimSpace (l : List Char) : List Char :=
  ((l.dropWhile isSpaceChar).reverse.dropWhile isSpaceChar).reverse

/-- Whether the character list begins with `n` dash characters, the check
`strings.HasPrefix(trimmed, "-----------")` performs with `n = 11`. -/
def startsWithDashes : List Char → Nat → Bool
  | _, 0 => true
  | [], _ + 1 => false
  | c :: rest, n + 1 => c = '-' && startsWithDashes rest n

/-- The scanning loop of `listAzureComputers` (`configuration.go` lines
232-250) over the chunks of the output split on carriage returns.  While
`skip` is set, a chunk whose trimmed form begins with the eleven-dash
header separator clears it; afterwards each chunk is trimmed, a blank
chunk stops the scan, and any other chunk contributes its uppercased
trimmed form. -/
def azureScan : Bool → List (List Char) → List String
  | _, [] => []
  | true, c :: rest =>
    azureScan (if startsWithDashes (goTrimSpace c) 11 then false else true)
      rest
  | false, c :: rest =>
    if goTrimSpace c = [] then []
    else String.mk ((goTrimSpace c).map goUpperChar) :: azureScan false rest

/-- The report parsing of `listAzureComputers`: split the PowerShell output
on `"\r"` (`strings.Split(string(out), "\r")`) and scan the chunks. -/
def parseAzureOutput (out : String) : List String :=
  azureScan true (goSplitCR out.data)

/-- Model of `listAzureComputers` (`configuration.go` lines 195-253) given the outcome
of the PowerShell session: a launch or exit error is fatal; a successful
session contributes the parsed device names, with no check that any were
found. -/
def listAzureComputers (azureRun : Except String String) :
    Except String (List String) :=
  match azureRun with
  | .error e => .error e
  | .ok out => .ok (parseAzureOutput out)

/-- The configuration fields the reconciliation pipeline reads. -/
structure Config where
  adEnabled : Bool
  azureEnabled : Bool
  exemptComputers : List String

/-- The outcomes of the external systems during one run: the inventory query,
the LDAP search, the PowerShell session, and the delete statement per name. -/
structure World where
  dbRows : Except String (List String)
  adEntries : Except String (List LdapEntry)
  azureRun : Except String String
  execOutcome : String → ExecOutcome

/-- The pipeline of `main` (`configuration.go` lines 96-108): load the
inventory, then the primary directory when enabled, then the cloud directory
when enabled (both appending to the same `adComputers` accumulator, modelled
by concatenation in that order), then reconcile.  Any fatal error aborts the
run before reconciliation. -/
def runMain (cfg : Config) (w : World) : Except String ReconcileResult :=
  match listDBComputers w.dbRows with
  | .error e => .error e
  | .ok db =>
    match (if cfg.adEnabled then listADComputers w.adEntries else .ok []) with
    | .error e => .error e
    | .ok ad1 =>
      match (if cfg.azureEnabled then listAzureComputers w.azureRun
             else .ok []) with
      | .error e => .error e
      | .ok ad2 =>
        .ok (findComputersToRemoveFromDB
          (fun n => removeComputer (w.execOutcome n))
          db (ad1 ++ ad2) cfg.exemptComputers)


/-! ## Helper lemmas -/

/-- Characterisation of the identifiers passed to the Removal Sink: the
engine passes exactly the inventory entries, in order and with multiplicity,
that match neither the directory list nor the exempt list. -/
theorem sinkCalls_eq_filter (remove : String → Bool)
    (db ad ex : List String) :
    (findComputersToRemoveFromDB remove db ad ex).sinkCalls
      = db.filter (fun x => !ad.contains x && !ex.contains x) := by
  induction db with
  | nil => rfl
  | cons x rest ih =>
    by_cases had : x ∈ ad <;>
      by_cases hex : x ∈ ex <;>
        simp [findComputersToRemoveFromDB, List.filter_cons, had, hex, ih]

/-- Characterisation of the identifiers logged as exempt: the inventory
entries absent from the directory list that match an exempt entry. -/
theorem exemptLogged_eq_filter (remove : String → Bool)
    (db ad ex : List String) :
    (findComputersToRemoveFromDB remove db ad ex).exemptLogged
      = db.filter (fun x => !ad.contains x && ex.contains x) := by
  induction db with
  | nil => rfl
  | cons x rest ih =>
    by_cases had : x ∈ ad <;>
      by_cases hex : x ∈ ex <;>
        simp [findComputersToRemoveFromDB, List.filter_cons, had, hex, ih]

/-- The removed count is the number of sink calls whose outcome was
success. -/
theorem removedCount_eq_countP (remove : String → Bool)
    (db ad ex : List String) :
    (findComputersToRemoveFromDB remove db ad ex).removedCount
      = (findComputersToRemoveFromDB remove db ad ex).sinkCalls.countP
          (fun x => remove x) := by
  induction db with
  | nil => rfl
  | cons x rest ih =>
    by_cases had : x ∈ ad <;>
      by_cases hex : x ∈ ex <;>
        by_cases hr : remove x = true <;>
          simp [findComputersToRemoveFromDB, List.countP_cons, had, hex, hr,
            ih, Nat.add_comm]

/-- Evaluation of `Char.ofNat` below the surrogate range. -/
theorem char_toNat_ofNat_lt (n : Nat) (h : n < 0xd800) :
    (Char.ofNat n).toNat = n := by
  simp [Char.ofNat, Nat.isValidChar, Char.toNat, h, Char.ofNatAux,
    UInt32.toNat, BitVec.toNat_ofNatLt]

/-- Unfolding of `goUpperChar` on an ASCII lowercase letter. -/
theorem goUpperChar_eq_of_lower (c : Char)
    (h : 97 ≤ c.toNat ∧ c.toNat ≤ 122) :
    goUpperChar c = Char.ofNat (c.toNat - 32) := by
  unfold goUpperChar
  exact if_pos h

/-- Unfolding of `goUpperChar` on any other character. -/
theorem goUpperChar_eq_of_not_lower (c : Char)
    (h : ¬(97 ≤ c.toNat ∧ c.toNat ≤ 122)) :
    goUpperChar c = c := by
  unfold goUpperChar
  exact if_neg h

/-- Uppercasing one character is idempotent. -/
theorem goUpperChar_idem (c : Char) :
    goUpperChar (goUpperChar c) = goUpperChar c := by
  by_cases h : 97 ≤ c.toNat ∧ c.toNat ≤ 122
  · have hv : (Char.ofNat (c.toNat - 32)).toNat = c.toNat - 32 :=
      char_toNat_ofNat_lt _ (by omega)
    rw [goUpperChar_eq_of_lower c h, goUpperChar_eq_of_not_lower]
    rw [hv]
    omega
  · rw [goUpperChar_eq_of_not_lower c h, goUpperChar_eq_of_not_lower c h]

/-- One ASCII character being the lowercase form of letters in the 97-122
range. -/
def asciiLower (c : Char) : Prop := 97 ≤ c.toNat ∧ c.toNat ≤ 122

/-- Two characters are equal up to letter case: either equal, or one is the
ASCII lowercase form of the other. -/
def charCaseVariant (a b : Char) : Prop :=
  a = b ∨ (asciiLower a ∧ b.toNat + 32 = a.toNat)
    ∨ (asciiLower b ∧ a.toNat + 32 = b.toNat)

/-- Two strings are equal up to letter case: their characters are pairwise
equal up to case. -/
def eqUpToCase (s t : String) : Prop :=
  List.Forall₂ charCaseVariant s.data t.data

/-- Characters equal up to case have the same uppercase form. -/
theorem goUpperChar_eq_of_caseVariant (a b : Char)
    (h : charCaseVariant a b) : goUpperChar a = goUpperChar b := by
  rcases h with h | ⟨ha, hab⟩ | ⟨hb, hba⟩
  · rw [h]
  · have ha' : 97 ≤ a.toNat ∧ a.toNat ≤ 122 := ha
    have hb32 : b.toNat = a.toNat - 32 := by omega
    rw [goUpperChar_eq_of_lower a ha,
      goUpperChar_eq_of_not_lower b (by omega)]
    rw [← hb32, Char.ofNat_toNat]
  · have hb' : 97 ≤ b.toNat ∧ b.toNat ≤ 122 := hb
    have ha32 : a.toNat = b.toNat - 32 := by omega
    rw [goUpperChar_eq_of_lower b hb,
      goUpperChar_eq_of_not_lower a (by omega)]
    rw [← ha32, Char.ofNat_toNat]

/-! ## Claims -/

/-- C1: for every inventory list, authoritative list (union of the enabled
directory sources) and exempt list, an identifier is passed to the Removal
Sink exactly when it is in the inventory, not in the authoritative list and
not in the exempt list — the sink receives exactly the set difference
`I \\ (A ∪ E)`, and an identifier not in the inventory is never passed. -/
theorem removal_sink_receives_difference (remove : String → Bool)
    (db ad ex : List String) (x : String) :
    x ∈ (findComputersToRemoveFromDB remove db ad ex).sinkCalls ↔
      x ∈ db ∧ x ∉ ad ∧ x ∉ ex := by
  rw [sinkCalls_eq_filter]
  simp [List.mem_filter]

/-- C2 counterexample: an exempt entry configured in lower case
(`"gamma"`) has the same canonical form as the inventory identifier
`"GAMMA"`, yet the engine passes `"GAMMA"` to the Removal Sink and logs
nothing as exempt: exemption is compared by exact string equality, not
over canonical identifiers. -/
theorem exempt_lowercase_entry_counterexample :
    goToUpper "gamma" = goToUpper "GAMMA" ∧
    (findComputersToRemoveFromDB (fun _ => true)
      ["GAMMA"] [] ["gamma"]).sinkCalls = ["GAMMA"] ∧
    (findComputersToRemoveFromDB (fun _ => true)
      ["GAMMA"] [] ["gamma"]).exemptLogged = [] :=
  ⟨rfl, rfl, rfl⟩

/-- C2 amended: exemption takes precedence over directory absence, but is
decided by exact string equality against the configured exempt entries as
written: for every identifier x in the inventory and absent from the
authoritative list, if x equals a configured exempt entry exactly, then x
is logged as exempt and never passed to the Removal Sink. -/
theorem exempt_exact_match_skips (remove : String → Bool)
    (db ad ex : List String) (x : String)
    (hdb : x ∈ db) (had : x ∉ ad) (hex : x ∈ ex) :
    x ∉ (findComputersToRemoveFromDB remove db ad ex).sinkCalls ∧
      x ∈ (findComputersToRemoveFromDB remove db ad ex).exemptLogged := by
  constructor
  · rw [sinkCalls_eq_filter]
    simp [List.mem_filter]
    intro _ _
    exact hex
  · rw [exemptLogged_eq_filter]
    simp [List.mem_filter]
    exact ⟨hdb, had, hex⟩

/-- C2 amended, witness at concrete input. -/
theorem exempt_exact_match_skips_witness :
    "BETA" ∉ (findComputersToRemoveFromDB (fun _ => true)
      ["ALPHA", "BETA"] ["ALPHA"] ["BETA"]).sinkCalls ∧
    "BETA" ∈ (findComputersToRemoveFromDB (fun _ => true)
      ["ALPHA", "BETA"] ["ALPHA"] ["BETA"]).exemptLogged :=
  exempt_exact_match_skips (fun _ => true) ["ALPHA", "BETA"] ["ALPHA"]
    ["BETA"] "BETA" (by decide) (by decide) (by decide)

/-- C3 counterexample: a delete that succeeds but affects zero rows is
reported as a successful removal (`true`), not as a failure: the code
discards the rows-affected result of the statement. -/
theorem remove_zero_rows_counterexample :
    removeComputer (ExecOutcome.ok 0) = true := rfl

/-- C3 amended: the Removal Sink returns `false` exactly when the delete
statement errors (the rows-affected result is discarded, so any error-free
delete returns `true`); a failure is non-fatal: the batch continues, the
candidates passed to the sink do not depend on the outcomes, the removed
count equals the number of candidates for which the sink returned `true`,
and one failure among two candidates gives removed count 1. -/
theorem remove_failure_nonfatal :
    (∀ e, removeComputer (ExecOutcome.execError e) = false) ∧
    (∀ n, removeComputer (ExecOutcome.ok n) = true) ∧
    (∀ (r₁ r₂ : String → Bool) (db ad ex : List String),
      (findComputersToRemoveFromDB r₁ db ad ex).sinkCalls
        = (findComputersToRemoveFromDB r₂ db ad ex).sinkCalls) ∧
    (∀ (remove : String → Bool) (db ad ex : List String),
      (findComputersToRemoveFromDB remove db ad ex).removedCount
        = (findComputersToRemoveFromDB remove db ad ex).sinkCalls.countP
            (fun x => remove x)) ∧
    (findComputersToRemoveFromDB
      (fun n => removeComputer (if n = "CAND1" then ExecOutcome.ok 1
        else ExecOutcome.execError "db error"))
      ["CAND1", "CAND2"] [] []).removedCount = 1 ∧
    (findComputersToRemoveFromDB
      (fun n => removeComputer (if n = "CAND1" then ExecOutcome.ok 1
        else ExecOutcome.execError "db error"))
      ["CAND1", "CAND2"] [] []).sinkCalls = ["CAND1", "CAND2"] := by
  refine ⟨fun e => rfl, fun n => rfl, ?_, removedCount_eq_countP, ?_, ?_⟩
  · intro r₁ r₂ db ad ex
    rw [sinkCalls_eq_filter, sinkCalls_eq_filter]
  · rfl
  · rfl

/-- C4: when the primary directory is enabled and its subtree search
returns zero entries, the run aborts with the fatal error before any
removal: `runMain` yields an error, so no `ReconcileResult` is produced,
the Removal Sink is never invoked and nothing is removed. -/
theorem empty_primary_directory_aborts (cfg : Config) (w : World)
    (rows : List String) (hdb : w.dbRows = Except.ok rows)
    (had : cfg.adEnabled = true) (hz : w.adEntries = Except.ok []) :
    runMain cfg w = Except.error "no results returned from ldap search" := by
  simp [runMain, listDBComputers, listADComputers, hdb, had, hz]

/-- C4, witness at concrete input. -/
theorem empty_primary_directory_aborts_witness :
    runMain ⟨true, false, []⟩
      ⟨Except.ok ["HOST1"], Except.ok [], Except.ok "",
        fun _ => ExecOutcome.ok 1⟩
      = Except.error "no results returned from ldap search" :=
  empty_primary_directory_aborts ⟨true, false, []⟩
    ⟨Except.ok ["HOST1"], Except.ok [], Except.ok "",
      fun _ => ExecOutcome.ok 1⟩
    ["HOST1"] rfl rfl rfl

/-- C5: a cloud directory report with zero device lines is not an error:
when the external session exits successfully and the parsed report yields
no names, the Cloud Directory Reader returns `ok []` and the run proceeds
to reconciliation — unlike the primary directory's empty-result policy. -/
theorem empty_cloud_report_not_error (cfg : Config) (w : World)
    (rows : List String) (out : String)
    (hdb : w.dbRows = Except.ok rows) (had : cfg.adEnabled = false)
    (haz : cfg.azureEnabled = true) (hout : w.azureRun = Except.ok out)
    (hempty : parseAzureOutput out = []) :
    listAzureComputers w.azureRun = Except.ok [] ∧
    runMain cfg w = Except.ok (findComputersToRemoveFromDB
      (fun n => removeComputer (w.execOutcome n))
      (rows.map goToUpper) [] cfg.exemptComputers) := by
  constructor
  · rw [hout]
    simp [listAzureComputers, hempty]
  · simp [runMain, listDBComputers, listAzureComputers, hdb, had, haz,
      hout, hempty]

/-- C5, witness at concrete input: an empty report parses to no devices
and the run completes, removing the sole inventory record. -/
theorem empty_cloud_report_not_error_witness :
    listAzureComputers (Except.ok "") = Except.ok [] ∧
    runMain ⟨false, true, []⟩
      ⟨Except.ok ["HOST1"], Except.ok [], Except.ok "",
        fun _ => ExecOutcome.ok 1⟩
      = Except.ok (findComputersToRemoveFromDB
          (fun _ => removeComputer (ExecOutcome.ok 1))
          ["HOST1"] [] []) :=
  empty_cloud_report_not_error ⟨false, true, []⟩
    ⟨Except.ok ["HOST1"], Except.ok [], Except.ok "",
      fun _ => ExecOutcome.ok 1⟩
    ["HOST1"] "" rfl rfl rfl rfl rfl

/-- C6 counterexample: the parser splits the report on carriage returns,
so on the claim's input, whose lines are separated by `"\n"` alone, the
header-separator line is never recognised and the parsed device list is
empty rather than `["DEVICE1", "DEVICE2"]`. -/
theorem azure_parse_lf_only_counterexample :
    parseAzureOutput "Header\n-----------\nDEVICE1\nDEVICE2\n\nTrailing junk"
      = [] ∧
    parseAzureOutput "Header\n-----------\nDEVICE1\nDEVICE2\n\nTrailing junk"
      ≠ ["DEVICE1", "DEVICE2"] := by
  refine ⟨rfl, ?_⟩
  decide

/-- C6 amended: the parser splits the report on carriage-return characters
(the report uses CRLF line endings), skips every chunk up through the one
whose trimmed form starts with the eleven-dash header separator, then
collects each subsequent non-blank line as one device name until the first
blank line, ignoring everything after it: for the CRLF input
`"Header\r\n-----------\r\nDEVICE1\r\nDEVICE2\r\n\r\nTrailing junk"` the
parsed device list is `["DEVICE1", "DEVICE2"]`. -/
theorem azure_parse_crlf_scenario :
    parseAzureOutput
      "Header\r\n-----------\r\nDEVICE1\r\nDEVICE2\r\n\r\nTrailing junk"
      = ["DEVICE1", "DEVICE2"] := rfl

/-- C7 counterexample: the cloud directory adapter trims surrounding
whitespace from each report line before uppercasing: the raw line
`" device1 "` is inserted as `"DEVICE1"`, not as its untrimmed uppercase
`" DEVICE1 "`. -/
theorem azure_trims_whitespace_counterexample :
    parseAzureOutput "Head\r\n-----------\r\n device1 \r\n\r\n"
      = ["DEVICE1"] ∧
    goToUpper " device1 " = " DEVICE1 " ∧
    ("DEVICE1" : String) ≠ " DEVICE1 " := by
  refine ⟨rfl, rfl, ?_⟩
  decide

/-- C7 amended: the inventory and primary directory adapters insert each
returned raw name as its uppercase with surrounding whitespace preserved;
the cloud directory adapter trims surrounding whitespace from each report
line before uppercasing it. -/
theorem adapter_whitespace_policy :
    (∀ rows, listDBComputers (Except.ok rows)
      = Except.ok (rows.map goToUpper)) ∧
    (∀ (v : String) (vs : List String) (attrs : List LdapAttribute)
        (rest : List LdapEntry),
      collectCns (⟨⟨v :: vs⟩ :: attrs⟩ :: rest)
        = (collectCns rest).map (fun l => goToUpper v :: l)) ∧
    (∀ (line : List Char) (rest : List (List Char)),
      azureScan false (line :: rest)
        = if goTrimSpace line = [] then []
          else String.mk ((goTrimSpace line).map goUpperChar)
            :: azureScan false rest) ∧
    goToUpper " a " = " A " :=
  ⟨fun _ => rfl, fun _ _ _ _ => rfl, fun _ _ => rfl, rfl⟩

/-- Pairwise case-equivalent character lists have the same uppercase
image. -/
theorem map_goUpperChar_eq_of_forall₂ (l₁ l₂ : List Char)
    (h : List.Forall₂ charCaseVariant l₁ l₂) :
    l₁.map goUpperChar = l₂.map goUpperChar := by
  induction h with
  | nil => rfl
  | cons hab _ ih => simp [ih, goUpperChar_eq_of_caseVariant _ _ hab]

/-- C8: identifier normalization (uppercase folding) is idempotent and
case-insensitive: `normalize(normalize(x)) = normalize(x)` for every
string, any two strings equal up to letter case normalize to the same
canonical identifier, and in particular `"abc"`, `"ABC"` and `"AbC"` all
normalize alike. -/
theorem normalize_idempotent_case_insensitive :
    (∀ s : String, goToUpper (goToUpper s) = goToUpper s) ∧
    (∀ s t : String, eqUpToCase s t → goToUpper s = goToUpper t) ∧
    goToUpper "abc" = goToUpper "ABC" ∧ goToUpper "ABC" = goToUpper "AbC" := by
  refine ⟨?_, ?_, rfl, rfl⟩
  · intro s
    show String.mk ((s.data.map goUpperChar).map goUpperChar) = _
    rw [List.map_map]
    exact congrArg String.mk
      (List.map_congr_left fun c _ => goUpperChar_idem c)
  · intro s t h
    exact congrArg String.mk (map_goUpperChar_eq_of_forall₂ _ _ h)

/-- C8, witness at concrete input: `"aB"` and `"Ab"` are equal up to case
and normalize to the same identifier. -/
theorem normalize_case_insensitive_witness :
    eqUpToCase "aB" "Ab" ∧ goToUpper "aB" = goToUpper "Ab" := by
  have h : eqUpToCase "aB" "Ab" := by
    show List.Forall₂ charCaseVariant ['a', 'B'] ['A', 'b']
    refine List.Forall₂.cons ?_ (List.Forall₂.cons ?_ List.Forall₂.nil)
    · exact Or.inr (Or.inl ⟨⟨by decide, by decide⟩, by decide⟩)
    · exact Or.inr (Or.inr ⟨⟨by decide, by decide⟩, by decide⟩)
  exact ⟨h, normalize_idempotent_case_insensitive.2.1 "aB" "Ab" h⟩

/-- C9: the primary directory reader assumes every search entry carries at
least one attribute with at least one value: a successful search whose
single entry has no attributes — or an attribute with no values — reaches
the error branch (the unguarded `Attributes[0].Values[0]` read), so the
reader is not total over arbitrary non-empty search results. -/
theorem ad_reader_unguarded_indexing :
    listADComputers (Except.ok [LdapEntry.mk []])
      = Except.error "runtime panic: index out of range" ∧
    listADComputers (Except.ok [LdapEntry.mk [LdapAttribute.mk []]])
      = Except.error "runtime panic: index out of range" ∧
    ([LdapEntry.mk []] : List LdapEntry).length > 0 :=
  ⟨rfl, rfl, by decide⟩

/-- C10: the inventory is a list, not a deduplicated set: two inventory
rows normalizing to the same canonical identifier that is neither
authoritative nor exempt cause one Removal Sink invocation per occurrence,
each successful invocation counting independently; in general the sink
call list is the inventory list filtered, multiplicity preserved. -/
theorem duplicate_inventory_rows_removed_per_occurrence :
    listDBComputers (Except.ok ["dup01", "DUP01"])
      = Except.ok ["DUP01", "DUP01"] ∧
    (findComputersToRemoveFromDB (fun _ => true)
      ["DUP01", "DUP01"] [] []).sinkCalls = ["DUP01", "DUP01"] ∧
    (findComputersToRemoveFromDB (fun _ => true)
      ["DUP01", "DUP01"] [] []).removedCount = 2 ∧
    (∀ (remove : String → Bool) (db ad ex : List String),
      (findComputersToRemoveFromDB remove db ad ex).sinkCalls
        = db.filter (fun x => !ad.contains x && !ex.contains x)) :=
  ⟨rfl, rfl, rfl, sinkCalls_eq_filter⟩

end Polarissync
